import Mathlib

/-!
Shallow embedding of `github-auto-review-bot` (src/src/index.ts).

The repository is an event-driven GitHub bot with three webhook handlers:
`pull_request.opened` (summary comment, label suggestion, label
reconciliation, reviewer routing), `pull_request.synchronize` (commit
review prompt, PR comment, check run) and `issue_comment.created`
(slash commands).  Collaborator calls (OpenAI completions, octokit REST
calls) are modelled as oracles returning `Except Err`; each handler is a
function from its oracles and payload fields to the ordered trace of
calls it makes (`List Effect`) together with the error escaping the
handler, if any.  JavaScript string operations used by the source
(`trim`, `toLowerCase`, `split`, `startsWith`, `replace`, `includes`,
`slice`) are embedded as structurally recursive functions on `List Char`
so that all definitions evaluate inside the kernel.
-/

/-- JavaScript `String.prototype.trim` on the character list: drop
whitespace from both ends. -/
def trimChars (l : List Char) : List Char :=
  ((l.dropWhile Char.isWhitespace).reverse.dropWhile Char.isWhitespace).reverse

/-- JavaScript `s.trim()`. -/
def jsTrim (s : String) : String :=
  ⟨trimChars s.data⟩

/-- JavaScript `s.toLowerCase()` (ASCII case folding, as used on the
ASCII label vocabulary). -/
def jsToLowerCase (s : String) : String :=
  ⟨s.data.map Char.toLower⟩

/-- Split a character list at every occurrence of the separator
character; JavaScript `s.split(sep)` for a one-character separator
(empty pieces are kept, and the empty string yields one empty piece). -/
def splitListOn (sep : Char) : List Char → List (List Char)
  | [] => [[]]
  | c :: cs =>
    let r := splitListOn sep cs
    if c = sep then
      [] :: r
    else
      match r with
      | [] => [[c]]
      | h :: t => (c :: h) :: t

/-- JavaScript `s.split(",")`. -/
def jsSplitComma (s : String) : List String :=
  (splitListOn ',' s.data).map (fun l => ⟨l⟩)

/-- JavaScript `s.split("\n")`. -/
def jsSplitNewline (s : String) : List String :=
  (splitListOn '\n' s.data).map (fun l => ⟨l⟩)

/-- Split a character list at every character satisfying the predicate
(separators dropped, empty pieces kept). -/
def splitListOnP (p : Char → Bool) : List Char → List (List Char)
  | [] => [[]]
  | c :: cs =>
    let r := splitListOnP p cs
    if p c then
      [] :: r
    else
      match r with
      | [] => [[c]]
      | h :: t => (c :: h) :: t

/-- JavaScript `s.trim().split(/\s+/)`: on a blank string the JS split
returns `[""]` (one empty token); on a non-blank trimmed string it
returns the maximal runs of non-whitespace characters (splitting at
every whitespace character and discarding the empty pieces produced by
whitespace runs). -/
def jsTrimSplitWs (s : String) : List String :=
  let t := trimChars s.data
  if t = [] then [""]
  else ((splitListOnP Char.isWhitespace t).filter (fun l => l ≠ [])).map (fun l => ⟨l⟩)

/-- Is `p` a prefix of `l`?  (JavaScript `startsWith` on char lists.) -/
def isPrefixList : List Char → List Char → Bool
  | [], _ => true
  | _ :: _, [] => false
  | p :: ps, c :: cs => p = c && isPrefixList ps cs

/-- JavaScript `s.startsWith(pat)`. -/
def jsStartsWith (s pat : String) : Bool :=
  isPrefixList pat.data s.data

/-- Remove the first occurrence of `pat` from the list (JavaScript
`s.replace(pat, "")` for a plain-string pattern, which replaces only the
first occurrence). -/
def removeFirstList (pat : List Char) : List Char → List Char
  | [] => []
  | c :: cs =>
    if isPrefixList pat (c :: cs) then (c :: cs).drop pat.length
    else c :: removeFirstList pat cs

/-- JavaScript `s.replace(pat, "")`. -/
def jsReplaceFirst (s pat : String) : String :=
  ⟨removeFirstList pat.data s.data⟩

/-- Does `pat` occur as a contiguous sublist of `l`? -/
def containsSubList (pat : List Char) : List Char → Bool
  | [] => isPrefixList pat []
  | c :: cs => isPrefixList pat (c :: cs) || containsSubList pat cs

/-- JavaScript `s.includes(pat)`. -/
def jsIncludes (s pat : String) : Bool :=
  containsSubList pat.data s.data

/-- JavaScript `s.slice(0, n)`: the first `n` characters. -/
def jsSliceTo (s : String) (n : Nat) : String :=
  ⟨s.data.take n⟩

/-- JavaScript `array.join(sep)` for string arrays. -/
def joinSep (sep : String) : List String → String
  | [] => ""
  | [x] => x
  | x :: y :: t => x ++ sep ++ joinSep sep (y :: t)

deriving instance DecidableEq for Except

/-- An error thrown by a collaborator call, as the handlers observe it:
an HTTP-style status (0 for errors that carry no status, such as a
`TypeError`) and a message. -/
structure Err where
  status : Nat
  message : String
deriving DecidableEq

/-- One observable interaction of a handler: a collaborator call or a
log line, in the order the handler performs them. -/
inductive Effect where
  | modelCompletion (prompt : String)
  | createComment (body : String)
  | addLabels (labels : List String)
  | createLabel (name : String) (color : String)
  | requestReviewers (reviewers : List String)
  | createCheck (name : String) (conclusion : String) (summary : String)
  | getContent (path : String)
  | logInfo (msg : String)
  | logWarn (msg : String)
  | logError (msg : String)
deriving DecidableEq

/-- Is the effect a model-collaborator call? -/
def Effect.isModelCall : Effect → Bool
  | .modelCompletion _ => true
  | _ => false

/-- Is the effect a comment creation? -/
def Effect.isCreateComment : Effect → Bool
  | .createComment _ => true
  | _ => false

/-- Is the effect a label creation? -/
def Effect.isCreateLabel : Effect → Bool
  | .createLabel _ _ => true
  | _ => false

/-- Is the effect a check-run creation? -/
def Effect.isCreateCheck : Effect → Bool
  | .createCheck _ _ _ => true
  | _ => false

/-- Is the effect a per-file content fetch? -/
def Effect.isGetContent : Effect → Bool
  | .getContent _ => true
  | _ => false

/-- Is the effect any repository mutation (comment, labels, label
creation, reviewer request, check run)? -/
def Effect.isRepoMutation : Effect → Bool
  | .createComment _ => true
  | .addLabels _ => true
  | .createLabel _ _ => true
  | .requestReviewers _ => true
  | .createCheck _ _ _ => true
  | _ => false

/-- Response Parser, label-list mode (`src/index.ts` lines 92–97):
`labelsRes.choices[0].text.trim().toLowerCase().split(",").map(l =>
l.trim()).filter(Boolean)`. -/
def parseLabels (text : String) : List String :=
  ((jsSplitComma (jsToLowerCase (jsTrim text))).map jsTrim).filter (fun s => s ≠ "")

/-- The static label → reviewers table (`src/index.ts` lines 129–137),
read through JavaScript `labelToReviewers[l] || []`: an absent key
yields the empty list. -/
def labelToReviewers (l : String) : List String :=
  if l = "frontend" then ["ui-team"]
  else if l = "backend" then ["api-team"]
  else if l = "bug" then ["qa-team"]
  else if l = "docs" then ["doc-reviewer"]
  else if l = "test" then ["qa-team"]
  else if l = "refactor" then ["arch-team"]
  else if l = "enhancement" then ["feature-owner"]
  else []

/-- First index of `v` in the list (JavaScript `Array.prototype.indexOf`
restricted to members; JS returns -1 for non-members, which never equals
a valid index, and the filter below only tests members). -/
def firstIdx (v : String) : List String → Nat
  | [] => 0
  | x :: xs => if x = v then 0 else firstIdx v xs + 1

/-- JavaScript `a.filter((v, i, a) => a.indexOf(v) === i)`: keep each
element only at the position of its first occurrence. -/
def jsUniq (a : List String) : List String :=
  ((a.enum).filter (fun p => firstIdx p.2 a == p.1)).map Prod.snd

/-- Reviewer Router (`src/index.ts` lines 138–140):
`suggestedLabels.flatMap(l => labelToReviewers[l] || []).filter((v, i,
a) => a.indexOf(v) === i)`. -/
def routeReviewers (labels : List String) : List String :=
  jsUniq (labels.flatMap labelToReviewers)

/-- Collaborator outcomes observed by the `pull_request.opened` handler.
`addLabels` takes the label and the attempt number inside one loop
iteration (0 = direct add, 1 = retry after creation). -/
structure OpenedOracles where
  summaryCompletion : Except Err String
  createComment : Except Err Unit
  listFiles : Except Err (List String)
  labelCompletion : Except Err String
  addLabels : String → Nat → Except Err Unit
  createLabel : String → Except Err Unit
  requestReviewers : List String → Except Err Unit

/-- One iteration of the label-application loop (`src/index.ts` lines
100–126): try the add; on a 404 create the label with color `cfd3d7`
and retry the add once; the `catch` block ignores any non-404 error of
the first add (its `if` has no `else`). -/
def applyOneLabel (o : OpenedOracles) (label : String) : List Effect × Option Err :=
  match o.addLabels label 0 with
  | .ok _ => ([Effect.addLabels [label]], none)
  | .error e =>
    if e.status = 404 then
      match o.createLabel label with
      | .error e1 => ([Effect.addLabels [label], Effect.createLabel label "cfd3d7"], some e1)
      | .ok _ =>
        match o.addLabels label 1 with
        | .ok _ =>
          ([Effect.addLabels [label], Effect.createLabel label "cfd3d7",
            Effect.addLabels [label]], none)
        | .error e2 =>
          ([Effect.addLabels [label], Effect.createLabel label "cfd3d7",
            Effect.addLabels [label]], some e2)
    else
      ([Effect.addLabels [label]], none)

/-- The `for (const label of suggestedLabels)` loop: iterations run in
order; an error propagating out of an iteration aborts the loop. -/
def labelLoop (o : OpenedOracles) : List String → List Effect × Option Err
  | [] => ([], none)
  | l :: ls =>
    match applyOneLabel o l with
    | (es, some e) => (es, some e)
    | (es, none) =>
      match labelLoop o ls with
      | (es1, r) => (es ++ es1, r)

/-- The reviewer-request step (`src/index.ts` lines 142–149): call
`requestReviewers` iff the routed reviewer list is non-empty. -/
def reviewerStep (o : OpenedOracles) (suggested : List String) : List Effect × Option Err :=
  let reviewers := routeReviewers suggested
  if reviewers.length ≠ 0 then
    match o.requestReviewers reviewers with
    | .error e => ([Effect.requestReviewers reviewers], some e)
    | .ok _ => ([Effect.requestReviewers reviewers], none)
  else ([], none)

/-- The summary prompt (`src/index.ts` line 44). -/
def summaryPromptOf (title url : String) : String :=
  "Provide a concise summary for the following pull request:\n\nTitle: "
    ++ title ++ "\n\nURL: " ++ url

/-- The label-suggestion prompt (`src/index.ts` lines 74–83), built from
the title, the (possibly absent) description and the changed-file
names. -/
def labelPromptOf (title : String) (body : Option String) (files : List String) : String :=
  "\nYou are a repo maintainer.  \nTitle: " ++ title ++ "  \nDescription: "
    ++ body.getD "" ++ "  \nFiles changed:\n"
    ++ joinSep "\n" (files.map (fun f => "- " ++ f))
    ++ "\n\nSuggest up to 3 labels (choose from: bug, enhancement, docs, test, refactor, frontend, backend).  \nOutput a comma-separated list only.\n"

/-- The body of the `try` block of the `pull_request.opened` handler
(`src/index.ts` lines 46–149): summary completion → summary comment →
file listing → label completion → label loop → reviewer step.  The
first component is the trace of calls made (a failing call is still a
call); the second is the error propagating to the handler `catch`. -/
def openedTryBody (o : OpenedOracles) (body : Option String) (title url : String) :
    List Effect × Option Err :=
  let es0 := [Effect.modelCompletion (summaryPromptOf title url)]
  match o.summaryCompletion with
  | .error e => (es0, some e)
  | .ok completionText =>
    let summary := jsTrim completionText
    let es1 := es0 ++ [Effect.createComment ("### 📝 PR Summary\n\n" ++ summary)]
    match o.createComment with
    | .error e => (es1, some e)
    | .ok _ =>
      let es2 := es1 ++ [Effect.logInfo "Commented summary on PR"]
      match o.listFiles with
      | .error e => (es2, some e)
      | .ok files =>
        let es3 := es2 ++ [Effect.modelCompletion (labelPromptOf title body files)]
        match o.labelCompletion with
        | .error e => (es3, some e)
        | .ok labelText =>
          let suggested := parseLabels labelText
          match labelLoop o suggested with
          | (esL, some e) => (es3 ++ esL, some e)
          | (esL, none) =>
            match reviewerStep o suggested with
            | (esR, r) => (es3 ++ esL ++ esR, r)

/-- The catch condition of the handler (`src/index.ts` line 151):
`err.status === 422 && err.message.includes("not a collaborator")`. -/
def shouldSwallow (e : Err) : Bool :=
  e.status == 422 && jsIncludes e.message "not a collaborator"

/-- The body-blank guard (`src/index.ts` line 43): `!body?.trim()` is
true iff the description is absent or trims to the empty string. -/
def isBlankBody (body : Option String) : Bool :=
  jsTrim (body.getD "") == ""

/-- The full `pull_request.opened` handler (`src/index.ts` lines
37–162): blank-body guard, `try` body, and the `catch` that swallows a
422 "not a collaborator" error with a warning and re-throws anything
else. -/
def openedHandler (o : OpenedOracles) (body : Option String) (title url : String) :
    List Effect × Option Err :=
  if isBlankBody body then
    match openedTryBody o body title url with
    | (es, none) => (es, none)
    | (es, some e) =>
      if shouldSwallow e then
        (es ++ [Effect.logWarn "One or more reviewers are not collaborators. Skipping."], none)
      else
        (es, some e)
  else
    ([Effect.logInfo "PR already has a description."], none)

/-- A changed file as returned by the commit fetch: `patch` may be
absent (GitHub omits it for binary or very large files). -/
structure ChangedFile where
  filename : String
  patch : Option String
deriving DecidableEq

/-- A changed file together with its fetched content (`src/index.ts`
lines 187–195: `{ filename: f.filename, patch: f.patch!, content }`;
the TypeScript `!` has no runtime effect, so an absent patch is simply
stored). -/
structure FileData where
  filename : String
  patch : Option String
  content : String
deriving DecidableEq

/-- Collaborator outcomes observed by the `pull_request.synchronize`
handler. -/
structure SyncOracles where
  getCommit : Except Err (List ChangedFile)
  getContent : String → Except Err String
  reviewCompletion : Except Err String
  createComment : Except Err Unit
  createCheck : Except Err Unit

/-- The `Promise.all(filesChanged.map(...))` content fetch
(`src/index.ts` lines 187–195): one `getContent` call per changed file
(all of them, not only the first 3); the first rejection propagates. -/
def fetchContents (o : SyncOracles) : List ChangedFile → Except Err (List FileData)
  | [] => .ok []
  | f :: fs =>
    match o.getContent f.filename with
    | .error e => .error e
    | .ok c =>
      match fetchContents o fs with
      | .error e => .error e
      | .ok rest => .ok (⟨f.filename, f.patch, c⟩ :: rest)

/-- `.map` over a list where the body can throw: the first throw
propagates, as in the JavaScript `Array.prototype.map` callbacks used
below. -/
def mapE {α β : Type} (f : α → Except Err β) : List α → Except Err (List β)
  | [] => .ok []
  | x :: xs =>
    match f x with
    | .error e => .error e
    | .ok y =>
      match mapE f xs with
      | .error e => .error e
      | .ok ys => .ok (y :: ys)

/-- One diff entry (`src/index.ts` lines 201–204):
`f.patch!.split("\n").slice(0, 20)` — dereferencing an absent patch
throws a `TypeError` (status-less error). -/
def diffEntryE (f : ChangedFile) : Except Err (String × List String) :=
  match f.patch with
  | none => .error ⟨0, "TypeError: Cannot read properties of undefined (reading split)"⟩
  | some p => .ok (f.filename, (jsSplitNewline p).take 20)

/-- The diff section entries: `filesChanged.slice(0, MAX_FILES).map(f =>
...)` with `MAX_FILES = 3`. -/
def diffEntriesE (files : List ChangedFile) : Except Err (List (String × List String)) :=
  mapE diffEntryE (files.take 3)

/-- Render one diff entry: `` `File: ${f.filename}\n${lines}` ``. -/
def renderDiffEntry (e : String × List String) : String :=
  "File: " ++ e.1 ++ "\n" ++ joinSep "\n" e.2

/-- The content section entries (`src/index.ts` lines 206–208):
`fileContents.slice(0, MAX_FILES).map(f => ...)` with
`f.content.slice(0, 2000)`. -/
def contentEntries (contents : List FileData) : List (String × String) :=
  (contents.take 3).map (fun f => (f.filename, jsSliceTo f.content 2000))

/-- Render one content entry: `` `// ${f.filename}\n${content}` ``. -/
def renderContentEntry (e : String × String) : String :=
  "// " ++ e.1 ++ "\n" ++ e.2

/-- The review prompt (`src/index.ts` lines 211–227), with the
`<<DIFF>>` and `<<FILES>>` sections. -/
def reviewPromptOf (diffSnippet contentSnippet : String) : String :=
  "\n      You are a senior software engineer reviewing a pull request. Below is the diff and file contents.\n      \n      Please:\n      - Summarize the intent of the commit in 2-3 bullet points.\n      - For each file, suggest improvements or note issues.\n      - Highlight bugs, missing functionality, or bad practices.\n      - Mention any security, logic, or performance issues.\n      \n      <<DIFF>>\n      "
    ++ diffSnippet
    ++ "\n      \n      <<FILES>>\n      "
    ++ contentSnippet
    ++ "\n      \n      <<END>>\n      "

/-- The body of the `try` block of the `pull_request.synchronize`
handler (`src/index.ts` lines 171–260). -/
def syncTryBody (o : SyncOracles) (sha : String) : List Effect × Option Err :=
  match o.getCommit with
  | .error e => ([], some e)
  | .ok files =>
    if files.length = 0 then
      ([Effect.logInfo "commit has no file changes."], none)
    else
      let fetchEs := files.map (fun f => Effect.getContent f.filename)
      match fetchContents o files with
      | .error e => (fetchEs, some e)
      | .ok contents =>
        match diffEntriesE files with
        | .error e => (fetchEs, some e)
        | .ok dEntries =>
          let diffSnippet := joinSep "\n\n---\n\n" (dEntries.map renderDiffEntry)
          let contentSnippet :=
            joinSep "\n\n---\n\n" ((contentEntries contents).map renderContentEntry)
          let prompt := reviewPromptOf diffSnippet contentSnippet
          let es1 := fetchEs ++ [Effect.modelCompletion prompt]
          match o.reviewCompletion with
          | .error e => (es1, some e)
          | .ok text =>
            let es2 := es1 ++
              [Effect.createComment
                ("### 🤖 Commit Review (" ++ jsSliceTo sha 7 ++ ")\n\n" ++ jsTrim text ++ "\n\n---\n")]
            match o.createComment with
            | .error e => (es2, some e)
            | .ok _ =>
              let es3 := es2 ++ [Effect.createCheck "AI Review" "neutral" (jsTrim text)]
              match o.createCheck with
              | .error e => (es3, some e)
              | .ok _ => (es3 ++ [Effect.logInfo "Posted review"], none)

/-- The full `pull_request.synchronize` handler (`src/index.ts` lines
164–264): its `catch` logs every error and re-throws nothing, so the
handler never lets an error escape and only the effect trace remains. -/
def synchronizeHandler (o : SyncOracles) (sha : String) : List Effect :=
  match syncTryBody o sha with
  | (es, none) => es
  | (es, some _) => es ++ [Effect.logError "Error reviewing commit"]

/-- The slash commands recognised by the `issue_comment.created`
handler. -/
inductive SlashCommand where
  | summarize
  | review
  | labels (args : List String)
  | assign (args : List String)
  | unrecognized
deriving DecidableEq

/-- The command dispatch of the `issue_comment.created` handler
(`src/index.ts` lines 277–310): an if/else-if chain on
`comment.startsWith(...)`, in the order `/summarize`, `/review`,
`/labels`, `/assign`; the argument lists are
`comment.replace(cmd, "").trim().split(/\s+/)`. -/
def parseCommand (comment : String) : SlashCommand :=
  if jsStartsWith comment "/summarize" then .summarize
  else if jsStartsWith comment "/review" then .review
  else if jsStartsWith comment "/labels" then
    .labels (jsTrimSplitWs (jsReplaceFirst comment "/labels"))
  else if jsStartsWith comment "/assign" then
    .assign (jsTrimSplitWs (jsReplaceFirst comment "/assign"))
  else .unrecognized

/-- Modelled from the spec: the parsing rule of the claim, in which the
command is determined by the *first whitespace-delimited token* of the
trimmed body and the arguments are the remaining tokens.  Stated only
for comparison with `parseCommand`, the rule the code implements. -/
def specCommandOf (comment : String) : SlashCommand :=
  match jsTrimSplitWs comment with
  | [] => .unrecognized
  | tok :: rest =>
    if tok = "/summarize" then .summarize
    else if tok = "/review" then .review
    else if tok = "/labels" then .labels rest
    else if tok = "/assign" then .assign rest
    else .unrecognized

/-- Collaborator outcomes observed by the `issue_comment.created`
handler. -/
structure CommentOracles where
  addLabels : List String → Except Err Unit
  requestReviewers : List String → Except Err Unit

/-- The full `issue_comment.created` handler (`src/index.ts` lines
266–314): trim the body, ignore non-PR issues, dispatch on the leading
command, and log (never re-throw) any error. -/
def commentHandler (o : CommentOracles) (rawBody : String) (isPullRequest : Bool) :
    List Effect :=
  let comment := jsTrim rawBody
  if isPullRequest then
    let step : List Effect × Option Err :=
      match parseCommand comment with
      | .summarize => ([Effect.logInfo "Slash: summarize PR"], none)
      | .review => ([Effect.logInfo "Slash: review latest commit"], none)
      | .labels ls =>
        match o.addLabels ls with
        | .error e => ([Effect.addLabels ls], some e)
        | .ok _ => ([Effect.addLabels ls, Effect.logInfo "Slash: added labels"], none)
      | .assign rs =>
        match o.requestReviewers rs with
        | .error e => ([Effect.requestReviewers rs], some e)
        | .ok _ => ([Effect.requestReviewers rs, Effect.logInfo "Slash: requested reviewers"], none)
      | .unrecognized => ([], none)
    match step with
    | (es, none) => es
    | (es, some _) => es ++ [Effect.logError "Slash command error"]
  else []

/-- Modelled from the spec: "deduplicated (first-occurrence order)" —
keep the first occurrence of each value, in order. -/
def dedupFirst : List String → List String
  | [] => []
  | x :: xs => x :: dedupFirst (xs.filter (fun y => y != x))
termination_by l => l.length
decreasing_by
  simp only [List.length_cons]
  exact Nat.lt_succ_of_le (List.length_filter_le _ _)

/-- A `pull_request.opened` oracle in which every collaborator call
succeeds; the model suggests the labels `bug, test`. -/
def allOkOracle : OpenedOracles where
  summaryCompletion := .ok "A concise summary."
  createComment := .ok ()
  listFiles := .ok ["a.ts"]
  labelCompletion := .ok "bug, test"
  addLabels := fun _ _ => .ok ()
  createLabel := fun _ => .ok ()
  requestReviewers := fun _ => .ok ()

/-- An oracle in which every `addLabels` call fails with a 500 (a
non-not-found failure). -/
def addFails500Oracle : OpenedOracles where
  summaryCompletion := .ok "A concise summary."
  createComment := .ok ()
  listFiles := .ok ["a.ts"]
  labelCompletion := .ok "bug"
  addLabels := fun _ _ => .error ⟨500, "Internal Server Error"⟩
  createLabel := fun _ => .ok ()
  requestReviewers := fun _ => .ok ()

/-- An oracle in which the first add of any label fails with a 404 (the
label is missing), creation succeeds and the retry succeeds. -/
def missing404Oracle : OpenedOracles where
  summaryCompletion := .ok "A concise summary."
  createComment := .ok ()
  listFiles := .ok ["a.ts"]
  labelCompletion := .ok "bug"
  addLabels := fun _ n => if n = 0 then .error ⟨404, "Not Found"⟩ else .ok ()
  createLabel := fun _ => .ok ()
  requestReviewers := fun _ => .ok ()

/-- An oracle in which everything succeeds except the reviewer request,
which fails with a 422 "not a collaborator" error. -/
def notCollabOracle : OpenedOracles where
  summaryCompletion := .ok "A concise summary."
  createComment := .ok ()
  listFiles := .ok ["a.ts"]
  labelCompletion := .ok "bug"
  addLabels := fun _ _ => .ok ()
  createLabel := fun _ => .ok ()
  requestReviewers := fun _ =>
    .error ⟨422, "Reviews may only be requested from collaborators. alice is not a collaborator."⟩

/-- A synchronize oracle whose commit carries four changed files, all
with patches, and in which every call succeeds. -/
def fourFilesOracle : SyncOracles where
  getCommit := .ok [⟨"a.ts", some "p1"⟩, ⟨"b.ts", some "p2"⟩,
                    ⟨"c.ts", some "p3"⟩, ⟨"d.ts", some "p4"⟩]
  getContent := fun _ => .ok "content"
  reviewCompletion := .ok "Looks fine."
  createComment := .ok ()
  createCheck := .ok ()

/-- A synchronize oracle whose commit carries one changed file without
patch text (as GitHub reports for binary or oversized files). -/
def missingPatchOracle : SyncOracles where
  getCommit := .ok [⟨"bin.dat", none⟩]
  getContent := fun _ => .ok "binarycontent"
  reviewCompletion := .ok "Looks fine."
  createComment := .ok ()
  createCheck := .ok ()

/-- A comment oracle in which both collaborator calls succeed. -/
def okCommentOracle : CommentOracles where
  addLabels := fun _ => .ok ()
  requestReviewers := fun _ => .ok ()

theorem mem_of_mem_dedupFirst {y : String} {l : List String} (h : y ∈ dedupFirst l) :
    y ∈ l := by
  induction l using dedupFirst.induct with
  | case1 => rw [dedupFirst] at h; cases h
  | case2 x xs ih =>
    rw [dedupFirst] at h
    rcases List.mem_cons.mp h with h1 | h1
    · exact h1 ▸ List.mem_cons_self _ _
    · exact List.mem_cons_of_mem _ (List.mem_of_mem_filter (ih h1))

theorem nodup_dedupFirst (l : List String) : (dedupFirst l).Nodup := by
  induction l using dedupFirst.induct with
  | case1 => simp [dedupFirst]
  | case2 x xs ih =>
    rw [dedupFirst]
    refine List.nodup_cons.mpr ⟨fun hx => ?_, ih⟩
    have := List.of_mem_filter (mem_of_mem_dedupFirst hx)
    simp at this

theorem firstIdx_lt_length {v : String} {l : List String} (h : v ∈ l) :
    firstIdx v l < l.length := by
  induction l with
  | nil => cases h
  | cons x xs ih =>
    by_cases hx : x = v
    · simp [firstIdx, hx]
    · simp only [firstIdx, if_neg hx, List.length_cons]
      have hv : v ∈ xs := by
        rcases List.mem_cons.mp h with h1 | h1
        · exact absurd h1.symm hx
        · exact h1
      exact Nat.succ_lt_succ (ih hv)

theorem firstIdx_append_of_mem {v : String} {pre : List String} (h : v ∈ pre)
    (l : List String) : firstIdx v (pre ++ l) = firstIdx v pre := by
  induction pre with
  | nil => cases h
  | cons x xs ih =>
    by_cases hx : x = v
    · simp [firstIdx, hx]
    · have hv : v ∈ xs := by
        rcases List.mem_cons.mp h with h1 | h1
        · exact absurd h1.symm hx
        · exact h1
      simp [firstIdx, if_neg hx, ih hv]

theorem firstIdx_append_of_not_mem {v : String} {pre : List String} (h : v ∉ pre)
    (l : List String) : firstIdx v (pre ++ l) = pre.length + firstIdx v l := by
  induction pre with
  | nil => simp [firstIdx]
  | cons x xs ih =>
    have hx : x ≠ v := fun hq => h (hq ▸ List.mem_cons_self _ _)
    have hv : v ∉ xs := fun hq => h (List.mem_cons_of_mem _ hq)
    have hstep : firstIdx v ((x :: xs) ++ l) = firstIdx v (xs ++ l) + 1 := by
      simp [firstIdx, hx]
    rw [hstep, ih hv, List.length_cons]
    omega

theorem jsUniqAux (a : List String) : ∀ pre : List String,
    ((List.enumFrom pre.length a).filter
        (fun p => firstIdx p.2 (pre ++ a) == p.1)).map Prod.snd
      = dedupFirst (a.filter (fun y => decide (y ∉ pre))) := by
  induction a with
  | nil => intro pre; simp [dedupFirst]
  | cons x xs ih =>
    intro pre
    have hseg : pre ++ x :: xs = (pre ++ [x]) ++ xs := by
      simp
    have hlen : pre.length + 1 = (pre ++ [x]).length := by
      simp
    by_cases hx : x ∈ pre
    · have hidx : firstIdx x (pre ++ x :: xs) = firstIdx x pre :=
        firstIdx_append_of_mem hx _
      have hne : (firstIdx x (pre ++ x :: xs) == pre.length) = false := by
        rw [hidx]
        exact beq_eq_false_iff_ne.mpr (Nat.ne_of_lt (firstIdx_lt_length hx))
      rw [List.enumFrom_cons]
      simp only [List.filter_cons, hne]
      rw [if_neg Bool.false_ne_true]
      rw [show pre.length + 1 = (pre ++ [x]).length from hlen]
      have hcond :
          (fun p : Nat × String => firstIdx p.2 (pre ++ x :: xs) == p.1)
            = fun p : Nat × String => firstIdx p.2 ((pre ++ [x]) ++ xs) == p.1 := by
        rw [hseg]
      rw [hcond, ih (pre ++ [x])]
      have hfl : xs.filter (fun y => decide (y ∉ pre ++ [x]))
          = xs.filter (fun y => decide (y ∉ pre)) := by
        apply List.filter_congr
        intro y _
        by_cases hyx : y = x
        · subst hyx
          simp [hx]
        · simp [List.mem_append, hyx]
      rw [hfl, if_neg (by simp [hx] : ¬(decide (x ∉ pre) = true))]
    · have hidx : firstIdx x (pre ++ x :: xs) = pre.length := by
        rw [firstIdx_append_of_not_mem hx]
        simp [firstIdx]
      have htr : (firstIdx x (pre ++ x :: xs) == pre.length) = true := by
        rw [hidx]; exact beq_self_eq_true _
      rw [List.enumFrom_cons]
      simp only [List.filter_cons, htr]
      rw [if_pos trivial, if_pos (by simp [hx] : decide (x ∉ pre) = true)]
      rw [List.map_cons]
      rw [show pre.length + 1 = (pre ++ [x]).length from hlen]
      have hcond :
          (fun p : Nat × String => firstIdx p.2 (pre ++ x :: xs) == p.1)
            = fun p : Nat × String => firstIdx p.2 ((pre ++ [x]) ++ xs) == p.1 := by
        rw [hseg]
      rw [hcond, ih (pre ++ [x]), dedupFirst]
      congr 1
      rw [List.filter_filter]
      apply congrArg
      apply List.filter_congr
      intro y _
      by_cases hyx : y = x
      · subst hyx
        simp
      · simp [List.mem_append, hyx]

theorem jsUniq_eq_dedupFirst (a : List String) : jsUniq a = dedupFirst a := by
  have h := jsUniqAux a []
  simpa [jsUniq, List.enum] using h

/-- C2, counterexample.  The claim says a parsed label list never
contains duplicate tokens; but the Response Parser only filters empty
tokens and never deduplicates, so the model output `"bug,bug"` parses to
`["bug", "bug"]`, which has a duplicate. -/
theorem C2_counterexample :
    parseLabels "bug,bug" = ["bug", "bug"] ∧ ¬ (parseLabels "bug,bug").Nodup := by
  decide

/-- C2, amended.  For every raw model output processed in label-list
mode, the resulting list contains no empty-string tokens, and its
elements appear in source-text occurrence order (it is an
order-preserving sublist of the comma-split, trimmed token list);
duplicate tokens are *not* removed. -/
theorem C2_amended_parse (text : String) :
    (∀ s ∈ parseLabels text, s ≠ "") ∧
      List.Sublist (parseLabels text)
        ((jsSplitComma (jsToLowerCase (jsTrim text))).map jsTrim) := by
  constructor
  · intro s hs
    have h := List.of_mem_filter hs
    simpa using h
  · exact List.filter_sublist _

/-- Witness for `C2_amended_parse` at the concrete output
`" Bug, ,bug "`. -/
theorem C2_amended_parse_witness : "" ∉ parseLabels " Bug, ,bug " :=
  fun h => (C2_amended_parse " Bug, ,bug ").1 "" h rfl

/-- C7, counterexample.  The claim says the slash command is
determined by the *first whitespace-delimited token* of the trimmed
body; but the handler dispatches on `startsWith`, so the body
`"/reviewers"` — whose first token is `/reviewers`, not `/review` — is
parsed as `Review` instead of `Unrecognized`. -/
theorem C7_counterexample :
    parseCommand "/reviewers" = SlashCommand.review ∧
      specCommandOf "/reviewers" = SlashCommand.unrecognized ∧
      SlashCommand.review ≠ SlashCommand.unrecognized := by
  decide

/-- C7, amended.  The slash command is determined by *prefix*
matching on the trimmed body, tested in the order `/summarize`,
`/review`, `/labels`, `/assign` (so an extension of a command word such
as `/reviewers` also matches); the `/labels` and `/assign` argument
lists are obtained by deleting the first occurrence of the command
string, trimming and splitting on whitespace runs; a body matching no
prefix is `Unrecognized` and is silently ignored — the handler performs
no collaborator call for it. -/
theorem C7_amended_dispatch (c : String) (co : CommentOracles) :
    (jsStartsWith c "/summarize" = true → parseCommand c = SlashCommand.summarize) ∧
    (jsStartsWith c "/summarize" = false → jsStartsWith c "/review" = true →
      parseCommand c = SlashCommand.review) ∧
    (jsStartsWith c "/summarize" = false → jsStartsWith c "/review" = false →
      jsStartsWith c "/labels" = true →
      parseCommand c = SlashCommand.labels (jsTrimSplitWs (jsReplaceFirst c "/labels"))) ∧
    (jsStartsWith c "/summarize" = false → jsStartsWith c "/review" = false →
      jsStartsWith c "/labels" = false → jsStartsWith c "/assign" = true →
      parseCommand c = SlashCommand.assign (jsTrimSplitWs (jsReplaceFirst c "/assign"))) ∧
    (jsStartsWith c "/summarize" = false → jsStartsWith c "/review" = false →
      jsStartsWith c "/labels" = false → jsStartsWith c "/assign" = false →
      parseCommand c = SlashCommand.unrecognized) ∧
    (parseCommand (jsTrim c) = SlashCommand.unrecognized → commentHandler co c true = []) := by
  refine ⟨?_, ?_, ?_, ?_, ?_, ?_⟩
  · intro h1
    simp [parseCommand, h1]
  · intro h1 h2
    simp [parseCommand, h1, h2]
  · intro h1 h2 h3
    simp [parseCommand, h1, h2, h3]
  · intro h1 h2 h3 h4
    simp [parseCommand, h1, h2, h3, h4]
  · intro h1 h2 h3 h4
    simp [parseCommand, h1, h2, h3, h4]
  · intro h
    simp [commentHandler, h]

/-- Witness for `C7_amended_dispatch` at the body `"/labels bug docs"`
(Scenario D of the spec). -/
theorem C7_amended_dispatch_witness :
    parseCommand "/labels bug docs" = SlashCommand.labels ["bug", "docs"] ∧
      commentHandler okCommentOracle "nothing here" true = [] := by
  have h := C7_amended_dispatch "/labels bug docs" okCommentOracle
  have h2 := C7_amended_dispatch "nothing here" okCommentOracle
  refine ⟨?_, h2.2.2.2.2.2 (by decide)⟩
  have := h.2.2.1 (by decide) (by decide) (by decide)
  rw [this]
  decide

/-- C9.  A trimmed comment body of exactly `/labels` (resp.
`/assign`) still produces a *single-element argument list containing the
empty string* — JavaScript `"".split(/\s+/)` is `[""]` — and the
handler passes `[""]` to the `addLabels` (resp. `requestReviewers`)
collaborator call rather than treating the command as argument-free. -/
theorem C9_bare_command_empty_arg (co : CommentOracles) :
    parseCommand "/labels" = SlashCommand.labels [""] ∧
    parseCommand "/assign" = SlashCommand.assign [""] ∧
    Effect.addLabels [""] ∈ commentHandler co "/labels" true ∧
    Effect.requestReviewers [""] ∈ commentHandler co "/assign" true := by
  refine ⟨by decide, by decide, ?_, ?_⟩
  · have hp : parseCommand (jsTrim "/labels") = SlashCommand.labels [""] := by decide
    simp only [commentHandler, hp]
    rcases co.addLabels [""] with e | u <;> simp
  · have hp : parseCommand (jsTrim "/assign") = SlashCommand.assign [""] := by decide
    simp only [commentHandler, hp]
    rcases co.requestReviewers [""] with e | u <;> simp

theorem openedTryBody_head (o : OpenedOracles) (body : Option String) (title url : String) :
    (openedTryBody o body title url).1.head?
      = some (Effect.modelCompletion (summaryPromptOf title url)) := by
  unfold openedTryBody
  rcases o.summaryCompletion with e | s
  · rfl
  · rcases o.createComment with e | u
    · rfl
    · rcases o.listFiles with e | fs
      · rfl
      · rcases o.labelCompletion with e | lt
        · rfl
        · rcases hLoop : labelLoop o (parseLabels lt) with ⟨esL, rL⟩
          rcases rL with _ | e
          · simp [hLoop]
          · simp [hLoop]

/-- C6.  A `PullRequestOpened` event with a non-blank (after
trimming) description is a no-op apart from logging: the handler makes
no model call and posts no comment.  Conversely, a blank or absent
description does trigger the enrichment flow — its very first effect is
the summary model call. -/
theorem C6_nonblank_noop (o : OpenedOracles) (body : Option String) (title url : String) :
    (isBlankBody body = false →
      openedHandler o body title url
        = ([Effect.logInfo "PR already has a description."], none) ∧
      ∀ e ∈ (openedHandler o body title url).1,
        e.isModelCall = false ∧ e.isCreateComment = false) ∧
    (isBlankBody body = true →
      (openedHandler o body title url).1.head?
        = some (Effect.modelCompletion (summaryPromptOf title url))) := by
  constructor
  · intro h
    have heq : openedHandler o body title url
        = ([Effect.logInfo "PR already has a description."], none) := by
      simp [openedHandler, h]
    refine ⟨heq, ?_⟩
    rw [heq]
    intro e he
    rcases List.mem_singleton.mp he with rfl
    exact ⟨rfl, rfl⟩
  · intro h
    have hh := openedTryBody_head o body title url
    unfold openedHandler
    rw [h]
    rcases htb : openedTryBody o body title url with ⟨es, r⟩
    rw [htb] at hh
    simp only at hh
    obtain ⟨t, rfl⟩ : ∃ t, es = Effect.modelCompletion (summaryPromptOf title url) :: t := by
      rcases es with _ | ⟨a, t⟩
      · simp at hh
      · exact ⟨t, by simp at hh; rw [hh]⟩
    rcases r with _ | e
    · simp
    · by_cases hsw : shouldSwallow e = true
      · simp [hsw]
      · simp [hsw]

/-- Witness for `C6_nonblank_noop` at a PR whose body is `"Fix crash"`
(non-blank, Scenario B) and at a blank body (Scenario A trigger). -/
theorem C6_nonblank_noop_witness :
    openedHandler allOkOracle (some "Fix crash") "t" "u"
        = ([Effect.logInfo "PR already has a description."], none) ∧
      (openedHandler allOkOracle none "t" "u").1.head?
        = some (Effect.modelCompletion (summaryPromptOf "t" "u")) :=
  ⟨((C6_nonblank_noop allOkOracle (some "Fix crash") "t" "u").1 (by decide)).1,
    (C6_nonblank_noop allOkOracle none "t" "u").2 (by decide)⟩

/-- C4.  For every list of applied labels, the reviewer set produced
by the Reviewer Router equals the deduplicated (first-occurrence order)
union of the entries of the static table for each member label; labels absent
from the table contribute nothing; and the `requestReviewers`
collaborator call is made if and only if that set is non-empty. -/
theorem C4_reviewer_routing (labels : List String) (o : OpenedOracles) :
    routeReviewers labels = dedupFirst (labels.flatMap labelToReviewers) ∧
    (routeReviewers labels).Nodup ∧
    (∀ l, l ∉ (["frontend", "backend", "bug", "docs", "test", "refactor",
        "enhancement"] : List String) → labelToReviewers l = []) ∧
    ((∃ rs, Effect.requestReviewers rs ∈ (reviewerStep o labels).1)
      ↔ routeReviewers labels ≠ []) := by
  refine ⟨jsUniq_eq_dedupFirst _, ?_, ?_, ?_⟩
  · rw [routeReviewers, jsUniq_eq_dedupFirst]
    exact nodup_dedupFirst _
  · intro l hl
    simp only [List.mem_cons, List.not_mem_nil, or_false, not_or] at hl
    obtain ⟨h1, h2, h3, h4, h5, h6, h7⟩ := hl
    simp [labelToReviewers, h1, h2, h3, h4, h5, h6, h7]
  · unfold reviewerStep
    by_cases hne : routeReviewers labels = []
    · simp [hne]
    · have hlen : (routeReviewers labels).length ≠ 0 :=
        fun h0 => hne (List.length_eq_zero.mp h0)
      rw [if_pos hlen]
      rcases o.requestReviewers (routeReviewers labels) with e | u
      · simpa using hne
      · simpa using hne

/-- Witness for `C4_reviewer_routing`: the suggested labels
`bug, test, mystery` route to the single reviewer team `qa-team`
(deduplicated), the unknown label contributes nothing, and the call is
made. -/
theorem C4_reviewer_routing_witness :
    routeReviewers ["bug", "test", "mystery"] = ["qa-team"] ∧
      labelToReviewers "mystery" = [] ∧
      (∃ rs, Effect.requestReviewers rs
        ∈ (reviewerStep allOkOracle ["bug", "test", "mystery"]).1) := by
  have h := C4_reviewer_routing ["bug", "test", "mystery"] allOkOracle
  exact ⟨by decide, h.2.2.1 "mystery" (by decide), h.2.2.2.mpr (by decide)⟩

/-- C1, counterexample.  The claim says any failure other than
not-found during add/create propagates to the caller; but the
`catch` has no `else` branch: when the direct add fails with a 500, no
label is created, *no error propagates* (the iteration reports success
and the loop continues), contradicting the claim. -/
theorem C1_counterexample :
    addFails500Oracle.addLabels "bug" 0 = .error ⟨500, "Internal Server Error"⟩ ∧
    applyOneLabel addFails500Oracle "bug" = ([Effect.addLabels ["bug"]], none) ∧
    labelLoop addFails500Oracle ["bug"] = ([Effect.addLabels ["bug"]], none) :=
  ⟨rfl, rfl, rfl⟩

/-- C1, amended.  For every label passed to the label-application
step, the algorithm attempts the add directly; if the add fails with a
not-found (404) condition it creates the label with the fixed default
color `cfd3d7` and retries the add exactly once (creation attempted at
most once per label per iteration); a failure during the *create* or
the *retry add* propagates to the caller — but a failure other than
not-found during the *initial* add is silently swallowed and the loop
moves on. -/
theorem C1_amended_label_step (o : OpenedOracles) (label : String) :
    ((applyOneLabel o label).1.filter Effect.isCreateLabel).length ≤ 1 ∧
    (o.addLabels label 0 = .ok () →
      applyOneLabel o label = ([Effect.addLabels [label]], none)) ∧
    (∀ e, o.addLabels label 0 = .error e → e.status ≠ 404 →
      applyOneLabel o label = ([Effect.addLabels [label]], none)) ∧
    (∀ e e1, o.addLabels label 0 = .error e → e.status = 404 →
      o.createLabel label = .error e1 →
      applyOneLabel o label
        = ([Effect.addLabels [label], Effect.createLabel label "cfd3d7"], some e1)) ∧
    (∀ e, o.addLabels label 0 = .error e → e.status = 404 →
      o.createLabel label = .ok () → o.addLabels label 1 = .ok () →
      applyOneLabel o label
        = ([Effect.addLabels [label], Effect.createLabel label "cfd3d7",
            Effect.addLabels [label]], none)) ∧
    (∀ e e2, o.addLabels label 0 = .error e → e.status = 404 →
      o.createLabel label = .ok () → o.addLabels label 1 = .error e2 →
      applyOneLabel o label
        = ([Effect.addLabels [label], Effect.createLabel label "cfd3d7",
            Effect.addLabels [label]], some e2)) := by
  refine ⟨?_, ?_, ?_, ?_, ?_, ?_⟩
  · unfold applyOneLabel
    rcases o.addLabels label 0 with e | u
    · by_cases h404 : e.status = 404
      · rcases o.createLabel label with e1 | u1
        · simp [h404, Effect.isCreateLabel]
        · rcases o.addLabels label 1 with e2 | u2 <;> simp [h404, Effect.isCreateLabel]
      · simp [h404, Effect.isCreateLabel]
    · simp [Effect.isCreateLabel]
  · intro h
    simp [applyOneLabel, h]
  · intro e h h404
    simp [applyOneLabel, h, h404]
  · intro e e1 h h404 hcr
    simp [applyOneLabel, h, h404, hcr]
  · intro e h h404 hcr h1
    simp [applyOneLabel, h, h404, hcr, h1]
  · intro e e2 h h404 hcr h1
    simp [applyOneLabel, h, h404, hcr, h1]

/-- Witness for `C1_amended_label_step`: under `missing404Oracle` the
direct add of `bug` 404s, the label is created once with color
`cfd3d7`, and the retry succeeds. -/
theorem C1_amended_label_step_witness :
    applyOneLabel missing404Oracle "bug"
      = ([Effect.addLabels ["bug"], Effect.createLabel "bug" "cfd3d7",
          Effect.addLabels ["bug"]], none) :=
  (C1_amended_label_step missing404Oracle "bug").2.2.2.2.1 ⟨404, "Not Found"⟩
    rfl rfl rfl rfl

theorem openedTryBody_spec (o : OpenedOracles) (body : Option String) (title url : String)
    (s lt : String) (fl : List String) (esL : List Effect)
    (hs : o.summaryCompletion = .ok s) (hc : o.createComment = .ok ())
    (hf : o.listFiles = .ok fl) (hl : o.labelCompletion = .ok lt)
    (hLoop : labelLoop o (parseLabels lt) = (esL, none)) :
    openedTryBody o body title url
      = ([Effect.modelCompletion (summaryPromptOf title url),
          Effect.createComment ("### 📝 PR Summary\n\n" ++ jsTrim s),
          Effect.logInfo "Commented summary on PR",
          Effect.modelCompletion (labelPromptOf title body fl)]
          ++ esL ++ (reviewerStep o (parseLabels lt)).1,
        (reviewerStep o (parseLabels lt)).2) := by
  unfold openedTryBody
  rw [hs, hc, hf, hl]
  rcases hstep : reviewerStep o (parseLabels lt) with ⟨esR, r⟩
  simp [hLoop, hstep]

set_option maxHeartbeats 1600000 in
/-- C5.  During the opened-PR flow, a reviewer-request failure whose
cause is the "identity is not a collaborator" condition (status 422 and
a message containing "not a collaborator") is caught and logged as a
warning, no exception escapes the handler, and the previously posted
summary comment and applied labels remain in the trace; any other
failure is re-raised out of the handler body. -/
theorem C5_reviewer_failure_swallowed
    (o : OpenedOracles) (body : Option String) (title url s lt : String)
    (fl : List String) (esL : List Effect) (e : Err)
    (hb : isBlankBody body = true)
    (hs : o.summaryCompletion = .ok s) (hc : o.createComment = .ok ())
    (hf : o.listFiles = .ok fl) (hl : o.labelCompletion = .ok lt)
    (hLoop : labelLoop o (parseLabels lt) = (esL, none))
    (hne : routeReviewers (parseLabels lt) ≠ [])
    (hr : o.requestReviewers (routeReviewers (parseLabels lt)) = .error e) :
    (shouldSwallow e = true →
      (openedHandler o body title url).2 = none ∧
      (openedHandler o body title url).1
        = (openedTryBody o body title url).1
            ++ [Effect.logWarn "One or more reviewers are not collaborators. Skipping."] ∧
      Effect.createComment ("### 📝 PR Summary\n\n" ++ jsTrim s)
        ∈ (openedHandler o body title url).1 ∧
      ∀ ef ∈ esL, ef ∈ (openedHandler o body title url).1) ∧
    (shouldSwallow e = false →
      openedHandler o body title url = ((openedTryBody o body title url).1, some e)) := by
  have hlen : (routeReviewers (parseLabels lt)).length ≠ 0 :=
    fun h0 => hne (List.length_eq_zero.mp h0)
  have hstep : reviewerStep o (parseLabels lt)
      = ([Effect.requestReviewers (routeReviewers (parseLabels lt))], some e) := by
    simp [reviewerStep, hlen, hr]
  have htb := openedTryBody_spec o body title url s lt fl esL hs hc hf hl hLoop
  rw [hstep] at htb
  constructor
  · intro hsw
    have hh : openedHandler o body title url
        = ((openedTryBody o body title url).1
            ++ [Effect.logWarn "One or more reviewers are not collaborators. Skipping."],
           none) := by
      unfold openedHandler
      rw [hb, htb]
      simp [hsw, htb]
    refine ⟨by rw [hh], by rw [hh], ?_, ?_⟩
    · rw [hh, htb]
      simp
    · intro ef hef
      rw [hh, htb]
      exact List.mem_append_left _ (List.mem_append_left _ (List.mem_append_right _ hef))
  · intro hsw
    unfold openedHandler
    rw [hb, htb]
    simp [hsw]

set_option maxHeartbeats 1600000 in
/-- Witness for `C5_reviewer_failure_swallowed`: under
`notCollabOracle` the reviewer request fails with a 422 "not a
collaborator" error, nothing escapes the handler, and the summary
comment and the applied label are still in the trace. -/
theorem C5_reviewer_failure_swallowed_witness :
    (openedHandler notCollabOracle none "t" "u").2 = none ∧
      Effect.createComment ("### 📝 PR Summary\n\n" ++ jsTrim "A concise summary.")
        ∈ (openedHandler notCollabOracle none "t" "u").1 ∧
      Effect.addLabels ["bug"] ∈ (openedHandler notCollabOracle none "t" "u").1 := by
  have h := (C5_reviewer_failure_swallowed notCollabOracle none "t" "u"
    "A concise summary." "bug" ["a.ts"] [Effect.addLabels ["bug"]]
    ⟨422, "Reviews may only be requested from collaborators. alice is not a collaborator."⟩
    (by decide) (by decide) (by decide) (by decide) (by decide) (by decide)
    (by decide) (by decide)).1 (by decide)
  exact ⟨h.1, h.2.2.1, h.2.2.2 (Effect.addLabels ["bug"]) (List.mem_singleton.mpr rfl)⟩

theorem mapE_ok_length {α β : Type} {f : α → Except Err β} :
    ∀ {l : List α} {ys : List β}, mapE f l = .ok ys → ys.length = l.length := by
  intro l
  induction l with
  | nil =>
    intro ys h
    rw [mapE] at h
    cases h
    rfl
  | cons x xs ih =>
    intro ys h
    rw [mapE] at h
    rcases hfx : f x with e | y
    · rw [hfx] at h; cases h
    · rw [hfx] at h
      rcases hm : mapE f xs with e | ys0
      · rw [hm] at h; cases h
      · rw [hm] at h
        cases h
        simp [ih hm]

theorem mapE_ok_mem {α β : Type} {f : α → Except Err β} :
    ∀ {l : List α} {ys : List β}, mapE f l = .ok ys → ∀ y ∈ ys, ∃ x ∈ l, f x = .ok y := by
  intro l
  induction l with
  | nil =>
    intro ys h
    rw [mapE] at h
    cases h
    intro y hy
    cases hy
  | cons x xs ih =>
    intro ys h
    rw [mapE] at h
    rcases hfx : f x with e | y0
    · rw [hfx] at h; cases h
    · rw [hfx] at h
      rcases hm : mapE f xs with e | ys0
      · rw [hm] at h; cases h
      · rw [hm] at h
        cases h
        intro y hy
        rcases List.mem_cons.mp hy with rfl | hmem
        · exact ⟨x, List.mem_cons_self _ _, hfx⟩
        · obtain ⟨x1, hx1, hfx1⟩ := ih hm y hmem
          exact ⟨x1, List.mem_cons_of_mem _ hx1, hfx1⟩

/-- C3.  For every changed-file list, the diff section of the review prompt carries at most 3 files with at most 20 patch lines each, and
its files section carries at most 3 files with at most 2000 content
characters each, regardless of input size. -/
theorem C3_prompt_truncation (files : List ChangedFile)
    (entries : List (String × List String)) (h : diffEntriesE files = .ok entries)
    (contents : List FileData) :
    entries.length ≤ 3 ∧
    (∀ en ∈ entries, en.2.length ≤ 20) ∧
    (contentEntries contents).length ≤ 3 ∧
    (∀ ce ∈ contentEntries contents, ce.2.length ≤ 2000) := by
  refine ⟨?_, ?_, ?_, ?_⟩
  · have hlen := mapE_ok_length h
    rw [hlen, List.length_take]
    exact Nat.min_le_left _ _
  · intro en hen
    obtain ⟨x, hx, hfx⟩ := mapE_ok_mem h en hen
    rw [diffEntryE] at hfx
    rcases hp : x.patch with _ | p
    · rw [hp] at hfx; cases hfx
    · rw [hp] at hfx
      cases hfx
      simp only [List.length_take]
      exact Nat.min_le_left _ _
  · simp only [contentEntries, List.length_map, List.length_take]
    exact Nat.min_le_left _ _
  · intro ce hce
    rcases List.mem_map.mp hce with ⟨fd, hfd, rfl⟩
    show (jsSliceTo fd.content 2000).length ≤ 2000
    have hl : (jsSliceTo fd.content 2000).length = (fd.content.data.take 2000).length := rfl
    rw [hl, List.length_take]
    exact Nat.min_le_left _ _

/-- Witness for `C3_prompt_truncation` at the boundary input of four
changed files (one more than the cap). -/
theorem C3_prompt_truncation_witness :
    ([("a.ts", ["l1", "l2"]), ("b.ts", ["x"]), ("c.ts", ["y"])]
        : List (String × List String)).length ≤ 3 ∧
      (contentEntries [⟨"a.ts", some "p", "hello"⟩]).length ≤ 3 := by
  have h := C3_prompt_truncation
    [⟨"a.ts", some "l1\nl2"⟩, ⟨"b.ts", some "x"⟩, ⟨"c.ts", some "y"⟩, ⟨"d.ts", some "z"⟩]
    [("a.ts", ["l1", "l2"]), ("b.ts", ["x"]), ("c.ts", ["y"])] (by decide)
    [⟨"a.ts", some "p", "hello"⟩]
  exact ⟨h.1, h.2.2.1⟩

theorem filter_isGetContent_fetches (files : List ChangedFile) :
    (files.map (fun f => Effect.getContent f.filename)).filter Effect.isGetContent
      = files.map (fun f => Effect.getContent f.filename) := by
  induction files with
  | nil => rfl
  | cons f fs ih => simp [Effect.isGetContent, ih]

/-- C8, counterexample.  The claim says per-file content is fetched
for at most 3 changed files; but the synchronize flow maps the fetch
over *all* changed files before truncating, so a commit with four
changed files triggers four `getContent` calls. -/
theorem C8_counterexample :
    ((synchronizeHandler fourFilesOracle "deadbe").filter Effect.isGetContent).length = 4 := by
  decide

/-- C8, amended.  During the synchronize flow, per-file content is
fetched for *every* changed file returned by the commit fetch (the
fetch is not bounded by the truncation cap); only the prompt embeds at
most 3 files. -/
theorem C8_amended_fetch_all (o : SyncOracles) (sha : String) (files : List ChangedFile)
    (h : o.getCommit = .ok files) :
    ((synchronizeHandler o sha).filter Effect.isGetContent).length = files.length ∧
    ∀ contents : List FileData, (contentEntries contents).length ≤ 3 := by
  constructor
  · have hfe := filter_isGetContent_fetches files
    by_cases h0 : files.length = 0
    · simp [synchronizeHandler, syncTryBody, h, h0, Effect.isGetContent]
    · rcases hf : fetchContents o files with e | contents
      · simp [synchronizeHandler, syncTryBody, h, h0, hf, hfe, Effect.isGetContent]
      · rcases hd : diffEntriesE files with e | ds
        · simp [synchronizeHandler, syncTryBody, h, h0, hf, hd, hfe, Effect.isGetContent]
        · rcases hrc : o.reviewCompletion with e | text
          · simp [synchronizeHandler, syncTryBody, h, h0, hf, hd, hrc, hfe,
              Effect.isGetContent]
          · rcases hcc : o.createComment with e | u
            · simp [synchronizeHandler, syncTryBody, h, h0, hf, hd, hrc, hcc, hfe,
                Effect.isGetContent]
            · rcases hck : o.createCheck with e | u2
              · simp [synchronizeHandler, syncTryBody, h, h0, hf, hd, hrc, hcc, hck, hfe,
                  Effect.isGetContent]
              · simp [synchronizeHandler, syncTryBody, h, h0, hf, hd, hrc, hcc, hck, hfe,
                  Effect.isGetContent]
  · intro contents
    simp only [contentEntries, List.length_map, List.length_take]
    exact Nat.min_le_left _ _

/-- Witness for `C8_amended_fetch_all`: under `fourFilesOracle` all
four changed files are fetched. -/
theorem C8_amended_fetch_all_witness :
    ((synchronizeHandler fourFilesOracle "deadbe").filter Effect.isGetContent).length
      = ([⟨"a.ts", some "p1"⟩, ⟨"b.ts", some "p2"⟩, ⟨"c.ts", some "p3"⟩,
          ⟨"d.ts", some "p4"⟩] : List ChangedFile).length :=
  (C8_amended_fetch_all fourFilesOracle "deadbe"
    [⟨"a.ts", some "p1"⟩, ⟨"b.ts", some "p2"⟩, ⟨"c.ts", some "p3"⟩, ⟨"d.ts", some "p4"⟩]
    (by decide)).1

theorem fetchContents_ok {o : SyncOracles} :
    ∀ {files : List ChangedFile},
      (∀ f ∈ files, ∃ c, o.getContent f.filename = .ok c) →
      ∃ cs, fetchContents o files = .ok cs := by
  intro files
  induction files with
  | nil => exact fun _ => ⟨[], rfl⟩
  | cons f fs ih =>
    intro hall
    obtain ⟨c, hc⟩ := hall f (List.mem_cons_self _ _)
    obtain ⟨cs, hcs⟩ := ih (fun g hg => hall g (List.mem_cons_of_mem _ hg))
    exact ⟨⟨f.filename, f.patch, c⟩ :: cs, by simp [fetchContents, hc, hcs]⟩

theorem mapE_error_of_missing_patch :
    ∀ {l : List ChangedFile}, (∃ f ∈ l, f.patch = none) →
      ∃ e, mapE diffEntryE l = .error e := by
  intro l
  induction l with
  | nil =>
    rintro ⟨f, hf, _⟩
    cases hf
  | cons g gs ih =>
    rintro ⟨f, hf, hp⟩
    rcases hg : g.patch with _ | p
    · exact ⟨⟨0, "TypeError: Cannot read properties of undefined (reading split)"⟩,
        by simp [mapE, diffEntryE, hg]⟩
    · rcases List.mem_cons.mp hf with rfl | hmem
      · rw [hg] at hp
        cases hp
      · obtain ⟨e, he⟩ := ih ⟨f, hmem, hp⟩
        exact ⟨e, by simp [mapE, diffEntryE, hg, he]⟩

/-- C10.  The synchronize handler requires every one of the first 3
changed files to carry patch text: if any of them has no patch, the
diff-section build throws before any model call, PR comment or
check-run creation, the error is caught by the failure
boundary of the handler and only logged, and no repository mutation occurs for that
event. -/
theorem C10_missing_patch_aborts (o : SyncOracles) (sha : String)
    (files : List ChangedFile) (h : o.getCommit = .ok files)
    (h0 : files.length ≠ 0) (hmiss : ∃ f ∈ files.take 3, f.patch = none)
    (hfetch : ∀ f ∈ files, ∃ c, o.getContent f.filename = .ok c) :
    (∀ e ∈ synchronizeHandler o sha, e.isModelCall = false ∧ e.isRepoMutation = false) ∧
    (synchronizeHandler o sha).getLast? = some (Effect.logError "Error reviewing commit") := by
  obtain ⟨cs, hcs⟩ := fetchContents_ok hfetch
  obtain ⟨e0, he0⟩ := mapE_error_of_missing_patch hmiss
  have hd : diffEntriesE files = .error e0 := he0
  have hh : synchronizeHandler o sha
      = files.map (fun f => Effect.getContent f.filename)
        ++ [Effect.logError "Error reviewing commit"] := by
    simp [synchronizeHandler, syncTryBody, h, h0, hcs, hd]
  rw [hh]
  constructor
  · intro e he
    rcases List.mem_append.mp he with hm | hm
    · rcases List.mem_map.mp hm with ⟨f, _, rfl⟩
      exact ⟨rfl, rfl⟩
    · rcases List.mem_singleton.mp hm with rfl
      exact ⟨rfl, rfl⟩
  · exact List.getLast?_concat _

/-- Witness for `C10_missing_patch_aborts`: a commit with one changed
binary file (no patch text) ends in a logged error and performs no
mutation. -/
theorem C10_missing_patch_aborts_witness :
    (synchronizeHandler missingPatchOracle "abc").getLast?
      = some (Effect.logError "Error reviewing commit") :=
  (C10_missing_patch_aborts missingPatchOracle "abc" [⟨"bin.dat", none⟩]
    (by decide) (by decide) ⟨⟨"bin.dat", none⟩, by decide, rfl⟩
    (fun _ _ => ⟨"binarycontent", rfl⟩)).2

/-- Witness for `C9_bare_command_empty_arg` under the all-success
comment oracle. -/
theorem C9_bare_command_empty_arg_witness :
    Effect.addLabels [""] ∈ commentHandler okCommentOracle "/labels" true :=
  (C9_bare_command_empty_arg okCommentOracle).2.2.1
